import Mathlib

/-!
Verification of the Python-like class emulator in `src/lib/py_class.ts`
(`newClass`, `newSingleton`): C3 linearization (`linearize` / `merge`),
instance construction (`ClassConstructor`), super dispatch (`__super__`),
and the singleton getter (`getInstance`).

Class records are identified by natural numbers (JS object identity is by
reference; every class record is a distinct object).  Arrays become Lean
lists; the `while` loop of `merge` is embedded with explicit fuel, where a
`none` result means the loop has not terminated within the given number of
iterations.
-/

namespace PyClass

/-! ## C3 linearization (`linearize` / `merge`, py_class.ts lines 238-255)

`merge` works on an array `seqs` of sequences.  Crucially, the sequences
handed to it are the parents' own stored `__mro__` arrays (only the
`parents` list itself is copied via `.slice()`), and `merge` consumes them
in place with `shift()`.  We model the store of class records explicitly,
and `merge` returns both its result and the final contents of the
sequences so the caller can write the mutated arrays back to the store. -/

/-- JS `Array.prototype.indexOf`: index of the first occurrence, `-1` if absent. -/
def jsIndexOf : List Nat → Nat → Int
  | [], _ => -1
  | a :: rest, x =>
    if a = x then 0
    else
      let r := jsIndexOf rest x
      if r = -1 then -1 else r + 1

/-- The eligibility test from `merge`: `seqs.every((s) => s.indexOf(cand) <= 0)`,
i.e. `cand` is in no sequence's tail (first occurrence, if any, is the head). -/
def headOk (seqs : List (List Nat)) (cand : Nat) : Bool :=
  seqs.all (fun s => jsIndexOf s cand ≤ 0)

/-- One pass of the `for (const seq of seqs)` loop: the first sequence whose
head `cand` exists (`if (cand && ...)`) and passes `headOk` yields `cand`. -/
def findCand : List (List Nat) → List (List Nat) → Option Nat
  | _, [] => none
  | seqs, s :: rest =>
    match s.head? with
    | some cand => if headOk seqs cand then some cand else findCand seqs rest
    | none => findCand seqs rest

/-- `seqs.forEach((s) => s[0] === cand && s.shift())`. -/
def shiftHeads (cand : Nat) (seqs : List (List Nat)) : List (List Nat) :=
  seqs.map (fun s => if s.head? = some cand then s.tail else s)

/-- The `while (seqs.some((s) => s.length))` loop of `merge`, with fuel counting
loop iterations.  `none` means the loop has not finished within `fuel`
iterations; a pass that finds no candidate leaves `seqs` unchanged, so the
JS loop spins forever in that case.  On termination we return the
accumulated result together with the final (fully consumed) sequences. -/
def mergeFuel : Nat → List (List Nat) → Option (List Nat × List (List Nat))
  | 0, _ => none
  | fuel + 1, seqs =>
    if seqs.all List.isEmpty then some ([], seqs)
    else
      match findCand seqs seqs with
      | some c => (mergeFuel fuel (shiftHeads c seqs)).map (fun r => (c :: r.1, r.2))
      | none => mergeFuel fuel seqs

/-- The store of class records: class id ↦ current contents of its stored
`__mro__` array.  (`__bases__` is never mutated and is passed explicitly.) -/
abbrev Store := List (Nat × List Nat)

/-- Read a class's stored `__mro__`. -/
def getMro (st : Store) (c : Nat) : Option (List Nat) :=
  st.lookup c

/-- Overwrite the stored `__mro__` of class `b` (only if `b` is in the store). -/
def setMro (st : Store) (b : Nat) (v : List Nat) : Store :=
  st.map (fun p => if p.1 = b then (b, v) else p)

/-- After `merge` returns, sequence `i` of `seqs` is the final contents of
parent `i`'s `__mro__` array (the extra copied `parents.slice()` sequence is
dropped by `zip`). -/
def writeBack (st : Store) (parents : List Nat) (finalSeqs : List (List Nat)) : Store :=
  (parents.zip finalSeqs).foldl (fun st p => setMro st p.1 p.2) st

/-- `newClass` restricted to its MRO bookkeeping (lines 238-255 and 379-382):
`linearize` builds `[cls, ...merge(...parentMros, parents.slice())]` where
`parentMros = parents.map((b) => b.__mro__ ?? [b])` aliases the parents'
stored arrays, and the result is stored as the new class's `__mro__`. -/
def newClassFuel (fuel : Nat) (st : Store) (c : Nat) (parents : List Nat) : Option Store :=
  let parentMros := parents.map (fun b => (getMro st b).getD [b])
  (mergeFuel fuel (parentMros ++ [parents])).map
    (fun r => (c, c :: r.1) :: writeBack st parents r.2)

/-! The diamond hierarchy of the spec's acceptance test, built in program
order: `A = newClass("A", {})`, `B = newClass("B", {}, A)`,
`C = newClass("C", {}, A)`, `D = newClass("D", {}, B, C)` with ids
`A = 1`, `B = 2`, `C = 3`, `D = 4`. -/

def stA : Option Store := newClassFuel 100 [] 1 []

def stB : Option Store := stA.bind (fun s => newClassFuel 100 s 2 [1])

def stC : Option Store := stB.bind (fun s => newClassFuel 100 s 3 [1])

def stD : Option Store := stC.bind (fun s => newClassFuel 100 s 4 [2, 3])

/-! ## Instance construction (`ClassConstructor`, py_class.ts lines 258-358)

JS values, as far as the constructor inspects them: `typeof` distinguishes
the constructor cases, truthiness drives the `if (!instance)` fallback.
Function values (methods, the per-instance bound closures created by
`(...a) => v(instance, ...a)`, accessor pairs installed by
`defineProperty`) are all collapsed to the constructor `vfn`; the claims
below depend only on which keys carry them. -/

inductive Val where
  | undef
  | vnull
  | vbool (b : Bool)
  | vnum (n : Int)
  | vstr (s : String)
  | vfn
  | vobj (fields : List (String × Val))

/-- JS truthiness (restricted to the modelled values; `NaN` is not modelled). -/
def isFalsy : Val → Bool
  | .undef => true
  | .vnull => true
  | .vbool b => !b
  | .vnum n => n == 0
  | .vstr s => s == ""
  | _ => false

/-- JS `typeof`. -/
def jsTypeof : Val → String
  | .undef => "undefined"
  | .vnull => "object"
  | .vbool _ => "boolean"
  | .vnum _ => "number"
  | .vstr _ => "string"
  | .vfn => "function"
  | .vobj _ => "object"

/-- An instance object: its own fields in insertion order, and whether it is
extensible (`Object.preventExtensions` clears the flag). -/
structure JSObj where
  fields : List (String × Val)
  ext : Bool

/-- Does a field table carry key `k`? -/
def objHasF (fs : List (String × Val)) (k : String) : Bool :=
  fs.any (fun p => p.1 == k)

def objHas (o : JSObj) (k : String) : Bool :=
  objHasF o.fields k

/-- JS assignment `o[k] = v` (non-strict effect): update an existing own
field, append a new one if the object is extensible, otherwise do nothing
observable. -/
def objSet (o : JSObj) (k : String) (v : Val) : JSObj :=
  if objHas o k then ⟨o.fields.map (fun p => if p.1 == k then (k, v) else p), o.ext⟩
  else if o.ext then ⟨o.fields ++ [(k, v)], o.ext⟩
  else o

/-- Reading `o[k]`: the stored value, or `undefined` when the key is absent. -/
def objGet (o : JSObj) (k : String) : Val :=
  match o.fields.find? (fun p => p.1 == k) with
  | some p => p.2
  | none => Val.undef

/-- Step 1 of the constructor (lines 266-278): run `__new__` if declared
(`newResult` is the value it returns on this invocation), fall back to a
fresh `Object.create(...)` if the result is falsy, and throw `TypeError`
if what remains is not of type "object".  A non-falsy value of typeof
"object" is necessarily `vobj` (null is falsy), so `toObj` is exact. -/
def toObj : Val → JSObj
  | .vobj fs => ⟨fs, true⟩
  | _ => ⟨[], true⟩

def rawInstance (hasNew : Bool) (newResult : Val) : Except String JSObj :=
  let i0 := if hasNew then newResult else Val.vobj []
  let i1 := if isFalsy i0 then Val.vobj [] else i0
  if jsTypeof i1 ≠ "object" then Except.error "TypeError: __new__ must return an object or undefined"
  else Except.ok (toObj i1)

/-- `needle` equals the first `needle.length` characters of `hay`. -/
def listPrefixEq : List Char → List Char → Bool
  | [], _ => true
  | _ :: _, [] => false
  | a :: as, b :: bs => a == b && listPrefixEq as bs

/-- JS `k.startsWith("__")`, on the character level. -/
def startsDunder (k : String) : Bool :=
  listPrefixEq "__".toList k.toList

/-- The `instanceMembers` extraction (lines 231-235): every definition key
that does not start with `"__"`, plus `__init__`, `__str__`, `__int__`.
This is also what `newClass` stores as the class's `__definition__`
(line 379). -/
def instanceMembers (defn : List (String × Val)) : List (String × Val) :=
  defn.filter (fun p =>
    !(startsDunder p.1) || ["__init__", "__str__", "__int__"].contains p.1)

/-- Step 3 (lines 298-305): copy one direct base's `__definition__` entries
that are neither already on the instance nor own members.  (The JS `in`
check also sees prototype-chain keys such as `toString`; the model checks
own fields, which only makes the copy condition weaker — no claim below
depends on the difference.)  Function values are installed as fresh bound
closures, i.e. stay `vfn`. -/
def installBase (members : List (String × Val)) (o : JSObj) (bdef : List (String × Val)) : JSObj :=
  bdef.foldl
    (fun o kv =>
      if !objHas o kv.1 && !objHasF members kv.1 then objSet o kv.1 kv.2 else o)
    o

def installBases (members : List (String × Val)) (basesDefs : List (List (String × Val)))
    (o : JSObj) : JSObj :=
  basesDefs.foldl (installBase members) o

/-- Step 4 (lines 307-310): install own members. -/
def installMembers (members : List (String × Val)) (o : JSObj) : JSObj :=
  members.foldl (fun o kv => objSet o kv.1 kv.2) o

/-- Step 5 (lines 312-320): `Object.defineProperty` for each property name
(the instance is still extensible at this stage), installing an accessor. -/
def objDefine (o : JSObj) (k : String) : JSObj :=
  if objHas o k then ⟨o.fields.map (fun p => if p.1 == k then (k, Val.vfn) else p), o.ext⟩
  else ⟨o.fields ++ [(k, Val.vfn)], o.ext⟩

def installProps (props : List String) (o : JSObj) : JSObj :=
  props.foldl objDefine o

/-- Step 6 (lines 322-330): if slots are declared, delete every own key
outside the slot list other than `__class__` and `__super__`, then
`Object.preventExtensions`. -/
def applySlots (slotsOpt : Option (List String)) (o : JSObj) : JSObj :=
  match slotsOpt with
  | none => o
  | some sl =>
    ⟨o.fields.filter (fun p => sl.contains p.1 || p.1 == "__class__" || p.1 == "__super__"),
      false⟩

/-- Step 7 (lines 332-335): `__init__` runs after the slots step; its effect
on the instance's own fields is a sequence of assignments. -/
def runInits (inits : List (String × Val)) (o : JSObj) : JSObj :=
  inits.foldl (fun o kv => objSet o kv.1 kv.2) o

/-- The data of one class closure as seen by its constructor: name, own
member table, property names, slots, the `__definition__` tables of the
direct bases, and whether `__new__` is declared. -/
structure CtorEnv where
  name : String
  members : List (String × Val)
  props : List String
  slotsOpt : Option (List String)
  basesDefs : List (List (String × Val))
  hasNew : Bool

/-- Steps 1-6: everything up to (and including) the slots step; step 2
(lines 280-296) installs the reserved `__class__` tag and `__super__`
dispatch closure. -/
def preInit (env : CtorEnv) (newResult : Val) : Except String JSObj :=
  (rawInstance env.hasNew newResult).map (fun o =>
    applySlots env.slotsOpt
      (installProps env.props
        (installMembers env.members
          (installBases env.members env.basesDefs
            (objSet (objSet o "__class__" (Val.vstr env.name)) "__super__" Val.vfn)))))

/-- The full construction (the step-8 proxy only wraps primitive coercion
and leaves the field table unchanged). -/
def construct (env : CtorEnv) (newResult : Val) (inits : List (String × Val)) :
    Except String JSObj :=
  (preInit env newResult).map (runInits inits)

/-- Did construction throw? -/
def isCtorError : Except String JSObj → Bool
  | .error _ => true
  | .ok _ => false

/-! ## Super dispatch (`__super__`, py_class.ts lines 282-296)

A method's observable behaviour for the dispatch claims is either
returning a value or making one cooperative super call; richer bodies only
iterate these two cases.  `tbl c m` is class `c`'s own member table
(`__definition__`) restricted to function-valued entries, since the
dispatcher skips non-function members (`typeof method === "function"`). -/

inductive Body where
  | ret (v : Int)
  | callSuper (m : String)

/-- The closure environment of one instance's `__super__`: the class name
`name`, the own-member tables, the frozen `mro` of the instance's class
`cls`.  `className` is in scope in the JS closure but never used by the
dispatcher — which is what the C5 analysis is about. -/
structure SuperEnv where
  className : String
  tbl : Nat → String → Option Body
  mro : List Nat
  cls : Nat

/-- The `for (let j = idx + 1; ...)` scan, started on the tail
`mro.drop (idx+1)`: the first class whose own table defines `m`. -/
def scanTail (tbl : Nat → String → Option Body) (m : String) : List Nat → Option (Nat × Body)
  | [] => none
  | c :: rest =>
    match tbl c m with
    | some b => some (c, b)
    | none => scanTail tbl m rest

/-- One `__super__(m)` call.  State component: the instance's transient
`_superContext` field (`none` = field deleted).  Result `none` means fuel
ran out; otherwise the JS outcome (normal value or thrown error message)
together with the `_superContext` left on the instance.  On the found
branch the code sets `_superContext = base`, invokes the method (whose own
super calls recurse with that context), and deletes `_superContext` only
on normal return — a thrown error propagates past the `delete`. -/
def superDispatch : Nat → SuperEnv → Option Nat → String → Option (Except String Int × Option Nat)
  | 0, _, _, _ => none
  | fuel + 1, env, st, m =>
    let ctx := st.getD env.cls
    let idx := jsIndexOf env.mro ctx
    match scanTail env.tbl m (env.mro.drop (idx + 1).toNat) with
    | none => some (Except.error ("__super__(): method '" ++ m ++ "' not found"), st)
    | some (c, b) =>
      match
        (match b with
          | Body.ret v => some (Except.ok v, some c)
          | Body.callSuper m2 => superDispatch fuel env (some c) m2) with
      | none => none
      | some (Except.ok v, _) => some (Except.ok v, none)
      | some (Except.error e, st2) => some (Except.error e, st2)

/-- Evaluating a method body under a given `_superContext`. -/
def runBody (fuel : Nat) (env : SuperEnv) (st : Option Nat) :
    Body → Option (Except String Int × Option Nat)
  | Body.ret v => some (Except.ok v, st)
  | Body.callSuper m2 => superDispatch fuel env st m2

/-- Substring test, for inspecting error-message contents. -/
def strHasSub (hay needle : String) : Bool :=
  (List.range (hay.toList.length + 1)).any
    (fun i => listPrefixEq needle.toList (hay.toList.drop i))

/-! ## Singleton factory (`newSingleton` / `getInstance`, lines 387-413)

`getInstance` reads and writes `cls._instance`.  Because step 9a of
`newClass` (lines 363-368) copies every definition key that does not start
with `"__"` onto the constructor, a definition key `_instance` pre-seeds
that slot. -/

def nonDunderEntries (defn : List (String × Val)) : List (String × Val) :=
  defn.filter (fun p => !(startsDunder p.1))

/-- The value of `cls._instance` right after `newClass` returns (step 9a;
JS object keys are unique, so first lookup = last write). -/
def initialInstanceSlot (defn : List (String × Val)) : Val :=
  ((nonDunderEntries defn).lookup "_instance").getD Val.undef

/-- One call of the getter: `if (!cls._instance) cls._instance = new cls(...args);
return cls._instance`.  `construct1` is the underlying class constructor
(always returning the instance object); the third component records
whether the constructor ran during this call. -/
def getInstance (construct1 : List Val → Val) (slot : Val) (args : List Val) :
    Val × Val × Bool :=
  if isFalsy slot then
    let i := construct1 args
    (i, i, true)
  else (slot, slot, false)

/-- A sequence of getter calls: the per-call (return value, constructed?)
pairs and the final `cls._instance` slot. -/
def runCalls (construct1 : List Val → Val) : Val → List (List Val) → List (Val × Bool) × Val
  | slot, [] => ([], slot)
  | slot, args :: rest =>
    let r := getInstance construct1 slot args
    let rr := runCalls construct1 r.2.1 rest
    ((r.1, r.2.2) :: rr.1, rr.2)

/-! ### Concrete fixtures used by individual claims. -/

/-- A class with a custom `__new__` and nothing else. -/
def env6 : CtorEnv := ⟨"N", [], [], none, [], true⟩

/-- A class declaring `__slots__: ["a"]` and an own member `a`. -/
def env7 : CtorEnv := ⟨"S", [("a", Val.vnum 1)], [], some ["a"], [], false⟩

/-- The instance `construct env7` produces. -/
def o7val : JSObj :=
  ⟨[("__class__", Val.vstr "S"), ("__super__", Val.vfn), ("a", Val.vnum 1)], false⟩

/-- A class declaring `__slots__: ["a"]` without installing `a`. -/
def env10 : CtorEnv := ⟨"T", [], [], some ["a"], [], false⟩

/-- Dispatch fixture: classes 10, 20, 30 with MRO [10, 20, 30]; only class
20 defines method "f". -/
def envW : SuperEnv :=
  ⟨"W", fun cid mn => if cid == 20 && mn == "f" then some (Body.ret 5) else none,
    [10, 20, 30], 10⟩

/-- Dispatch fixture for the missing-method error: class "Zebra" (id 1)
with MRO [1] and no methods anywhere. -/
def envZ : SuperEnv := ⟨"Zebra", fun _ _ => none, [1], 1⟩

/-- A stand-in underlying constructor for the singleton claims. -/
def mkObj1 : List Val → Val := fun _ => Val.vobj [("x", Val.vnum 1)]

end PyClass

namespace PyClass

/-! # Theorems -/

/-- C3: for the diamond hierarchy A, B(A), C(A), D(B, C), the MRO stored on D
at class-definition time is exactly [D, B, C, A]: the shared ancestor A
occurs once, after both B and C. -/
theorem mro_diamond : stD.bind (fun s => getMro s 4) = some [4, 2, 3, 1] := by
  rfl

/-- C1: computing D's MRO mutates the parents' stored MROs.  Before the call
`newClass("D", {}, B, C)`, B's stored `__mro__` is [B, A]; after the call it
is empty — `merge` shifts the elements off the parents' actual `__mro__`
arrays (only the `parents` list itself is copied), so the stored MRO of an
already-built class is not immutable. -/
theorem parent_mro_mutated_by_subclass :
    stC.bind (fun s => getMro s 2) = some [2, 1] ∧
      stD.bind (fun s => getMro s 2) = some [] := by
  exact ⟨rfl, rfl⟩

/-- A `merge` state with a non-empty sequence and no eligible candidate never
terminates, whatever the fuel: each `while` iteration leaves `seqs` unchanged. -/
theorem merge_stuck (seqs : List (List Nat)) (h1 : findCand seqs seqs = none)
    (h2 : seqs.all List.isEmpty = false) : ∀ fuel, mergeFuel fuel seqs = none := by
  intro fuel
  induction fuel with
  | zero => rfl
  | succ n ih => simp [mergeFuel, h1, h2, ih]

/-- C2: the conflicting hierarchy `A = newClass("A", {})`,
`B = newClass("B", {}, A)`, `X = newClass("X", {}, A, B)` (the declared
parent order A, B contradicts B's MRO [B, A], so no C3 linearization
exists).  `newClass` does not raise: the `merge` loop never terminates, so
no constructor — and no error — is ever produced.  (Ids: A = 1, B = 2,
X = 3; the store after building B is exactly `[(2, [2, 1]), (1, [])]`.) -/
theorem conflict_never_terminates :
    ∀ fuel, stB.bind (fun s => newClassFuel fuel s 3 [1, 2]) = none := by
  intro fuel
  have hB : stB = some [(2, [2, 1]), (1, [])] := rfl
  rw [hB]
  show (mergeFuel fuel [[], [2, 1], [1, 2]]).map _ = none
  rw [merge_stuck [[], [2, 1], [1, 2]] (by decide) (by decide) fuel]
  rfl

/-! ### Field-table lemmas -/

theorem objHasF_cons (kv : String × Val) (rest : List (String × Val)) (m : String) :
    objHasF (kv :: rest) m = ((kv.1 == m) || objHasF rest m) := rfl

theorem beq_false_symm {a b : String} (h : (a == b) = false) : (b == a) = false := by
  cases hb : b == a
  · rfl
  · rw [eq_of_beq hb] at h
    simp at h

theorem objSet_ext (o : JSObj) (k : String) (v : Val) : (objSet o k v).ext = o.ext := by
  unfold objSet
  by_cases h1 : objHas o k = true
  · simp [h1]
  · by_cases h2 : o.ext = true <;> simp [h1, h2]

theorem keys_any (fs : List (String × Val)) (p : String → Bool) :
    (fs.map Prod.fst).any p = fs.any (fun q => p q.1) := by
  induction fs with
  | nil => rfl
  | cons a rest ih => simp [List.any_cons, ih]

theorem keys_all (fs : List (String × Val)) (p : String → Bool) :
    (fs.map Prod.fst).all p = fs.all (fun q => p q.1) := by
  induction fs with
  | nil => rfl
  | cons a rest ih => simp [List.all_cons, ih]

theorem objHas_eq_keys (o : JSObj) (k : String) :
    objHas o k = (o.fields.map Prod.fst).any (fun s => s == k) := by
  rw [keys_any]
  rfl

theorem objSet_keys_of_has (o : JSObj) (k : String) (v : Val) (h : objHas o k = true) :
    (objSet o k v).fields.map Prod.fst = o.fields.map Prod.fst := by
  simp only [objSet, h, if_true]
  rw [List.map_map]
  apply List.map_congr_left
  intro p _
  by_cases hp : (p.1 == k) = true
  · simp [Function.comp, hp, (eq_of_beq hp).symm]
  · simp [Function.comp, hp]

theorem objSet_keys_of_not_ext (o : JSObj) (k : String) (v : Val) (h : o.ext = false) :
    (objSet o k v).fields.map Prod.fst = o.fields.map Prod.fst := by
  by_cases hk : objHas o k = true
  · exact objSet_keys_of_has o k v hk
  · simp [objSet, hk, h]

theorem runInits_keys_of_not_ext (inits : List (String × Val)) (o : JSObj) (h : o.ext = false) :
    (runInits inits o).fields.map Prod.fst = o.fields.map Prod.fst ∧
      (runInits inits o).ext = false := by
  induction inits generalizing o with
  | nil => exact ⟨rfl, h⟩
  | cons kv rest ih =>
    have he : (objSet o kv.1 kv.2).ext = false := by rw [objSet_ext]; exact h
    have hr := ih (objSet o kv.1 kv.2) he
    exact ⟨hr.1.trans (objSet_keys_of_not_ext o kv.1 kv.2 h), hr.2⟩

theorem objSet_not_has (o : JSObj) (k : String) (v : Val) (m : String)
    (hkm : (k == m) = false) (hm : objHas o m = false) :
    objHas (objSet o k v) m = false := by
  by_cases h1 : objHas o k = true
  · rw [objHas_eq_keys, objSet_keys_of_has o k v h1, ← objHas_eq_keys]
    exact hm
  · by_cases h2 : o.ext = true
    · have : (objSet o k v).fields = o.fields ++ [(k, v)] := by
        simp [objSet, h1, h2]
      rw [objHas, this]
      simp only [objHasF, List.any_append]
      rw [show ((o.fields.any fun p => p.1 == m) = false) from hm]
      simp [hkm]
    · simp [objSet, h1, h2]
      exact hm

theorem objDefine_not_has (o : JSObj) (k : String) (m : String)
    (hkm : (k == m) = false) (hm : objHas o m = false) :
    objHas (objDefine o k) m = false := by
  by_cases h1 : objHas o k = true
  · have : (objDefine o k).fields.map Prod.fst = o.fields.map Prod.fst := by
      simp only [objDefine, h1, if_true]
      rw [List.map_map]
      apply List.map_congr_left
      intro p _
      by_cases hp : (p.1 == k) = true
      · simp [Function.comp, hp, (eq_of_beq hp).symm]
      · simp [Function.comp, hp]
    rw [objHas_eq_keys, this, ← objHas_eq_keys]
    exact hm
  · have : (objDefine o k).fields = o.fields ++ [(k, Val.vfn)] := by
      simp [objDefine, h1]
    rw [objHas, this]
    simp only [objHasF, List.any_append]
    rw [show ((o.fields.any fun p => p.1 == m) = false) from hm]
    simp [hkm]

theorem installMembers_not_has (members : List (String × Val)) (o : JSObj) (m : String)
    (hmem : objHasF members m = false) (hm : objHas o m = false) :
    objHas (installMembers members o) m = false := by
  induction members generalizing o with
  | nil => exact hm
  | cons kv rest ih =>
    rw [objHasF_cons] at hmem
    obtain ⟨h1, h2⟩ := Bool.or_eq_false_iff.mp hmem
    exact ih _ h2 (objSet_not_has o kv.1 kv.2 m h1 hm)

theorem installBase_not_has (members : List (String × Val)) (bdef : List (String × Val))
    (o : JSObj) (m : String) (hb : objHasF bdef m = false) (hm : objHas o m = false) :
    objHas (installBase members o bdef) m = false := by
  induction bdef generalizing o with
  | nil => exact hm
  | cons kv rest ih =>
    rw [objHasF_cons] at hb
    obtain ⟨h1, h2⟩ := Bool.or_eq_false_iff.mp hb
    have hstep :
        objHas (if !objHas o kv.1 && !objHasF members kv.1 then objSet o kv.1 kv.2 else o) m =
          false := by
      split
      · exact objSet_not_has o kv.1 kv.2 m h1 hm
      · exact hm
    exact ih _ h2 hstep

theorem installBases_not_has (members : List (String × Val))
    (basesDefs : List (List (String × Val))) (o : JSObj) (m : String)
    (hb : ∀ bdef ∈ basesDefs, objHasF bdef m = false) (hm : objHas o m = false) :
    objHas (installBases members basesDefs o) m = false := by
  induction basesDefs generalizing o with
  | nil => exact hm
  | cons bdef rest ih =>
    exact ih _ (fun d hd => hb d (List.mem_cons_of_mem bdef hd))
      (installBase_not_has members bdef o m (hb bdef (List.mem_cons_self bdef rest)) hm)

theorem installProps_not_has (props : List String) (o : JSObj) (m : String)
    (hp : props.contains m = false) (hm : objHas o m = false) :
    objHas (installProps props o) m = false := by
  induction props generalizing o with
  | nil => exact hm
  | cons k rest ih =>
    have hsplit : (m == k) = false ∧ rest.contains m = false := by
      rw [List.contains_cons] at hp
      exact Bool.or_eq_false_iff.mp hp
    exact ih _ hsplit.2 (objDefine_not_has o k m (beq_false_symm hsplit.1) hm)

theorem objHasF_filter (fs : List (String × Val)) (q : String × Val → Bool) (m : String)
    (hm : objHasF fs m = false) : objHasF (fs.filter q) m = false := by
  induction fs with
  | nil => rfl
  | cons kv rest ih =>
    rw [objHasF_cons] at hm
    obtain ⟨h1, h2⟩ := Bool.or_eq_false_iff.mp hm
    by_cases hq : q kv = true
    · rw [List.filter_cons_of_pos hq, objHasF_cons, ih h2, h1]
      rfl
    · rw [List.filter_cons_of_neg (by simpa using hq)]
      exact ih h2

theorem applySlots_not_has (so : Option (List String)) (o : JSObj) (m : String)
    (hm : objHas o m = false) : objHas (applySlots so o) m = false := by
  cases so with
  | none => exact hm
  | some sl => exact objHasF_filter o.fields _ m hm

theorem runInits_not_has (inits : List (String × Val)) (o : JSObj) (m : String)
    (hin : objHasF inits m = false) (hm : objHas o m = false) :
    objHas (runInits inits o) m = false := by
  induction inits generalizing o with
  | nil => exact hm
  | cons kv rest ih =>
    rw [objHasF_cons] at hin
    obtain ⟨h1, h2⟩ := Bool.or_eq_false_iff.mp hin
    exact ih _ h2 (objSet_not_has o kv.1 kv.2 m h1 hm)

theorem objGet_of_not_has (o : JSObj) (m : String) (hm : objHas o m = false) :
    objGet o m = Val.undef := by
  unfold objGet
  have hfind : o.fields.find? (fun p => p.1 == m) = none := by
    rw [List.find?_eq_none]
    intro p hp
    have := (List.any_eq_false.mp hm) p hp
    simpa using this
  rw [hfind]

theorem isCtorError_map (f : JSObj → JSObj) (x : Except String JSObj) :
    isCtorError (x.map f) = isCtorError x := by
  cases x <;> rfl

/-- C6 (counterexample): a custom allocator returning `null` — a non-object
value — does not make construction raise: the `if (!instance)` fallback
replaces any falsy result with a fresh object and construction succeeds. -/
theorem allocator_null_fallback :
    construct env6 Val.vnull [] =
      Except.ok ⟨[("__class__", Val.vstr "N"), ("__super__", Val.vfn)], true⟩ := by
  rfl

/-- C6 (amended): with a custom `__new__`, construction raises exactly when
the allocator's result is truthy and not of typeof "object"; every falsy
result (undefined, null, false, 0, "") is silently replaced by the same
fresh fallback instance a missing allocator result would give. -/
theorem allocator_error_iff (env : CtorEnv) (nr : Val) (inits : List (String × Val))
    (h : env.hasNew = true) :
    (isCtorError (construct env nr inits) = true ↔
      isFalsy nr = false ∧ jsTypeof nr ≠ "object")
    ∧ (isFalsy nr = true →
        construct env nr inits = construct env (Val.vobj []) inits) := by
  have hraw : ∀ v : Val, construct env v inits =
      (rawInstance env.hasNew v).map (fun o =>
        runInits inits (applySlots env.slotsOpt (installProps env.props
          (installMembers env.members (installBases env.members env.basesDefs
            (objSet (objSet o "__class__" (Val.vstr env.name)) "__super__" Val.vfn)))))) := by
    intro v
    unfold construct preInit
    cases rawInstance env.hasNew v <;> rfl
  constructor
  · rw [hraw, isCtorError_map, h]
    by_cases hf : isFalsy nr = true
    · simp [rawInstance, hf, jsTypeof, isCtorError]
    · by_cases ht : jsTypeof nr = "object"
      · simp [rawInstance, hf, ht, isCtorError]
      · simp [rawInstance, hf, ht, isCtorError]
  · intro hf
    rw [hraw, hraw, h]
    have : rawInstance true nr = rawInstance true (Val.vobj []) := by
      simp [rawInstance, hf]
    rw [this]

/-- Witness for `allocator_error_iff`: a truthy non-object allocator result
(the number 7) makes construction throw. -/
theorem allocator_error_iff_witness :
    env6.hasNew = true ∧ isCtorError (construct env6 (Val.vnum 7) []) = true := by
  refine ⟨rfl, ?_⟩
  exact (allocator_error_iff env6 (Val.vnum 7) [] rfl).1.mpr ⟨rfl, by decide⟩

theorem all_filter_self (l : List (String × Val)) (P : String × Val → Bool) :
    (l.filter P).all P = true := by
  rw [List.all_eq_true]
  intro p hp
  exact List.of_mem_filter hp

theorem preInit_slots_ext (env : CtorEnv) (sl : List String) (nr : Val) (o6 : JSObj)
    (hsl : env.slotsOpt = some sl) (hok : preInit env nr = Except.ok o6) : o6.ext = false := by
  unfold preInit at hok
  cases hraw : rawInstance env.hasNew nr with
  | error e =>
    rw [hraw] at hok
    simp [Except.map] at hok
  | ok o0 =>
    rw [hraw] at hok
    simp only [Except.map] at hok
    injection hok with hok
    rw [← hok, hsl]
    rfl

/-- C7: on a class declaring `__slots__`, every own field of a completed
instance is a slot name or one of the two reserved fields, and assigning
any other name afterwards leaves that name absent (the instance was made
non-extensible by the slots step). -/
theorem slots_restrict_fields (env : CtorEnv) (sl : List String) (nr : Val)
    (inits : List (String × Val)) (o : JSObj)
    (hsl : env.slotsOpt = some sl)
    (hok : construct env nr inits = Except.ok o) :
    (o.fields.all
        (fun p => sl.contains p.1 || p.1 == "__class__" || p.1 == "__super__") = true)
    ∧ ∀ k v, sl.contains k = false → (k == "__class__") = false → (k == "__super__") = false →
        objHas (objSet o k v) k = false := by
  unfold construct at hok
  cases hp6 : preInit env nr with
  | error e =>
    rw [hp6] at hok
    simp [Except.map] at hok
  | ok o6 =>
    rw [hp6] at hok
    simp only [Except.map] at hok
    injection hok with hok
    have hext6 : o6.ext = false := preInit_slots_ext env sl nr o6 hsl hp6
    have hall6 : o6.fields.all
        (fun p => sl.contains p.1 || p.1 == "__class__" || p.1 == "__super__") = true := by
      unfold preInit at hp6
      cases hraw : rawInstance env.hasNew nr with
      | error e =>
        rw [hraw] at hp6
        simp [Except.map] at hp6
      | ok o0 =>
        rw [hraw] at hp6
        simp only [Except.map] at hp6
        injection hp6 with hp6
        rw [← hp6, hsl]
        exact all_filter_self _ _
    have hkeys := runInits_keys_of_not_ext inits o6 hext6
    have hallO : o.fields.all
        (fun p => sl.contains p.1 || p.1 == "__class__" || p.1 == "__super__") = true := by
      have e1 : (o.fields.map Prod.fst).all
          (fun s => sl.contains s || s == "__class__" || s == "__super__") =
            (o6.fields.map Prod.fst).all
          (fun s => sl.contains s || s == "__class__" || s == "__super__") := by
        rw [← hok, hkeys.1]
      have e2 := keys_all o.fields
        (fun s => sl.contains s || s == "__class__" || s == "__super__")
      have e3 := keys_all o6.fields
        (fun s => sl.contains s || s == "__class__" || s == "__super__")
      exact (e2.symm.trans (e1.trans e3)).trans hall6
    have hexto : o.ext = false := by rw [← hok]; exact hkeys.2
    refine ⟨hallO, ?_⟩
    intro k v hk1 hk2 hk3
    have hko : objHas o k = false := by
      cases hko' : objHas o k
      · rfl
      · exfalso
        rw [objHas, objHasF] at hko'
        obtain ⟨p, hp, hpk⟩ := List.any_eq_true.mp hko'
        have hall := (List.all_eq_true.mp hallO) p hp
        rw [eq_of_beq hpk] at hall
        rw [hk1, hk2, hk3] at hall
        simp at hall
    have hid : objSet o k v = o := by simp [objSet, hko, hexto]
    rw [hid]
    exact hko

/-- Witness for `slots_restrict_fields`: `__slots__: ["a"]` with member `a`;
the completed instance has only `__class__`, `__super__`, `a`, and a later
assignment of `b` is not observable. -/
theorem slots_restrict_fields_witness :
    objHas (objSet o7val "b" (Val.vnum 2)) "b" = false ∧
      o7val.fields.all
        (fun p => ["a"].contains p.1 || p.1 == "__class__" || p.1 == "__super__") = true := by
  have h := slots_restrict_fields env7 ["a"] Val.undef [] o7val rfl rfl
  exact ⟨h.2 "b" (Val.vnum 2) (by decide) (by decide) (by decide), h.1⟩

/-- C10: with `__slots__` declared, the instance is closed to new fields
before `__init__` runs: any name absent when the slots step completes —
including a declared slot name that was never installed — is still absent
after `__init__`'s assignments and after any later assignment. -/
theorem slots_lock_before_init (env : CtorEnv) (sl : List String) (nr : Val) (o6 : JSObj)
    (k : String) (inits : List (String × Val)) (v : Val)
    (hsl : env.slotsOpt = some sl)
    (hok : preInit env nr = Except.ok o6)
    (hk : objHas o6 k = false) :
    (runInits inits o6).ext = false ∧ objHas (runInits inits o6) k = false ∧
      objHas (objSet (runInits inits o6) k v) k = false := by
  have hext := preInit_slots_ext env sl nr o6 hsl hok
  have hkeys := runInits_keys_of_not_ext inits o6 hext
  have h2 : objHas (runInits inits o6) k = false := by
    rw [objHas_eq_keys, hkeys.1, ← objHas_eq_keys]
    exact hk
  refine ⟨hkeys.2, h2, ?_⟩
  have hid : objSet (runInits inits o6) k v = runInits inits o6 := by
    simp [objSet, h2, hkeys.2]
  rw [hid]
  exact h2

/-- Witness for `slots_lock_before_init`: `__slots__: ["a"]` with no member
`a`; `__init__`'s assignment `self.a = 1` does not create the field. -/
theorem slots_lock_before_init_witness :
    objHas (runInits [("a", Val.vnum 1)]
        ⟨[("__class__", Val.vstr "T"), ("__super__", Val.vfn)], false⟩) "a" = false := by
  exact (slots_lock_before_init env10 ["a"] Val.undef
      ⟨[("__class__", Val.vstr "T"), ("__super__", Val.vfn)], false⟩ "a" [("a", Val.vnum 1)]
      (Val.vnum 2) rfl rfl rfl).2.1

theorem construct_not_has (env : CtorEnv) (inits : List (String × Val)) (m : String) (o : JSObj)
    (hnew : env.hasNew = false)
    (hmem : objHasF env.members m = false)
    (hbases : ∀ bdef ∈ env.basesDefs, objHasF bdef m = false)
    (hp : env.props.contains m = false)
    (h1 : ("__class__" == m) = false) (h2 : ("__super__" == m) = false)
    (hin : objHasF inits m = false)
    (hok : construct env Val.undef inits = Except.ok o) :
    objHas o m = false ∧ objGet o m = Val.undef := by
  unfold construct preInit at hok
  rw [hnew] at hok
  rw [show rawInstance false Val.undef = Except.ok ⟨[], true⟩ from rfl] at hok
  simp only [Except.map] at hok
  injection hok with hok
  rw [← hok]
  have hbase : objHas
      (objSet (objSet ⟨[], true⟩ "__class__" (Val.vstr env.name)) "__super__" Val.vfn) m =
        false := by
    apply objSet_not_has _ _ _ _ h2
    apply objSet_not_has _ _ _ _ h1
    rfl
  have hres := runInits_not_has inits _ m hin (applySlots_not_has env.slotsOpt _ m
    (installProps_not_has env.props _ m hp (installMembers_not_has env.members _ m hmem
      (installBases_not_has env.members env.basesDefs _ m hbases hbase))))
  exact ⟨hres, objGet_of_not_has _ _ hres⟩

/-- C9: in a hierarchy C(B), B(A) where member `m` is declared only on the
grandparent A, constructing a C instance installs nothing named `m`: the
constructor copies members only from the direct parents' own
`__definition__` tables (here `[instanceMembers dB]`), never transitively,
so reading `m` yields `undefined`. -/
theorem grandparent_member_not_inherited (nm : String) (dA dB dC : List (String × Val))
    (props : List String) (slotsOpt : Option (List String)) (m : String)
    (inits : List (String × Val)) (o : JSObj)
    (hA : objHasF (instanceMembers dA) m = true)
    (hB : objHasF (instanceMembers dB) m = false)
    (hC : objHasF (instanceMembers dC) m = false)
    (hp : props.contains m = false)
    (h1 : ("__class__" == m) = false) (h2 : ("__super__" == m) = false)
    (hin : objHasF inits m = false)
    (hok : construct ⟨nm, instanceMembers dC, props, slotsOpt, [instanceMembers dB], false⟩
        Val.undef inits = Except.ok o) :
    objHas o m = false ∧ objGet o m = Val.undef := by
  apply construct_not_has _ inits m o rfl hC _ hp h1 h2 hin hok
  intro bdef hbd
  rw [List.mem_singleton] at hbd
  rw [hbd]
  exact hB

/-- Witness for `grandparent_member_not_inherited`: A declares `m`, B and C
declare nothing; the constructed C instance carries only the two reserved
fields and reads `m` as `undefined`. -/
theorem grandparent_member_not_inherited_witness :
    objHas ⟨[("__class__", Val.vstr "C"), ("__super__", Val.vfn)], true⟩ "m" = false ∧
      objGet ⟨[("__class__", Val.vstr "C"), ("__super__", Val.vfn)], true⟩ "m" = Val.undef := by
  exact grandparent_member_not_inherited "C" [("m", Val.vfn)] [] [] [] none "m" []
    ⟨[("__class__", Val.vstr "C"), ("__super__", Val.vfn)], true⟩
    rfl rfl rfl rfl rfl rfl rfl rfl

/-! ### Super dispatch -/

theorem jsIndexOf_nodup {l : List Nat} {i : Nat} {x : Nat} (hnd : l.Nodup)
    (hx : l[i]? = some x) : jsIndexOf l x = (i : Int) := by
  induction l generalizing i with
  | nil => simp at hx
  | cons a rest ih =>
    rw [List.nodup_cons] at hnd
    cases i with
    | zero =>
      rw [List.getElem?_cons_zero] at hx
      injection hx with hx
      subst hx
      simp [jsIndexOf]
    | succ n =>
      rw [List.getElem?_cons_succ] at hx
      have hax : ¬ a = x := by
        intro h
        subst h
        exact hnd.1 (List.getElem?_mem hx)
      have hr := ih hnd.2 hx
      have hne : ¬ ((n : Int) = -1) := by omega
      simp only [jsIndexOf, hax, if_false, hr, hne]
      omega

theorem scanTail_of_first {tbl : Nat → String → Option Body} {m : String} :
    ∀ (l : List Nat) (j : Nat) (c : Nat) (b : Body),
      l[j]? = some c → tbl c m = some b →
      (∀ k ck, k < j → l[k]? = some ck → tbl ck m = none) →
      scanTail tbl m l = some (c, b) := by
  intro l
  induction l with
  | nil =>
    intro j c b hj
    simp at hj
  | cons a rest ih =>
    intro j c b hj hb hmin
    cases j with
    | zero =>
      rw [List.getElem?_cons_zero] at hj
      injection hj with hj
      subst hj
      simp [scanTail, hb]
    | succ n =>
      have ha : tbl a m = none := hmin 0 a (Nat.succ_pos n) List.getElem?_cons_zero
      rw [List.getElem?_cons_succ] at hj
      have hmin' : ∀ k ck, k < n → rest[k]? = some ck → tbl ck m = none := by
        intro k ck hk hck
        exact hmin (k + 1) ck (by omega) (by rw [List.getElem?_cons_succ]; exact hck)
      simp [scanTail, ha, ih n c b hj hb hmin']

/-- Unfolding one `__super__` call: look up the context's position, scan the
strict tail of the MRO, and either throw or run the found body under the
temporary context. -/
theorem superDispatch_succ (fuel : Nat) (env : SuperEnv) (st : Option Nat) (m : String) :
    superDispatch (fuel + 1) env st m =
      match scanTail env.tbl m
          (env.mro.drop ((jsIndexOf env.mro (st.getD env.cls)) + 1).toNat) with
      | none => some (Except.error ("__super__(): method '" ++ m ++ "' not found"), st)
      | some (c, b) =>
        match runBody fuel env (some c) b with
        | none => none
        | some (Except.ok v, _) => some (Except.ok v, none)
        | some (Except.error e, st2) => some (Except.error e, st2) := by
  cases hs : scanTail env.tbl m
      (env.mro.drop ((jsIndexOf env.mro (st.getD env.cls)) + 1).toNat) with
  | none => simp [superDispatch, hs]
  | some cb =>
    obtain ⟨c, b⟩ := cb
    cases b with
    | ret v => simp [superDispatch, hs, runBody]
    | callSuper m2 => simp [superDispatch, hs, runBody]

/-- C4: when the current context class K sits at position i of the frozen MRO
and the first class after i whose own member table defines `m` is `c` (at
position j), `__super__(m)` runs `c`'s method with the instance's transient
context set to `c` — so a super call inside that method resumes the scan
strictly after position j, not after K — and the context is cleared again
(deleted) when the dispatch returns normally. -/
theorem super_dispatch_resolves (env : SuperEnv) (st : Option Nat) (m : String)
    (fuel i j K c : Nat) (b : Body)
    (hnd : env.mro.Nodup)
    (hK : st.getD env.cls = K)
    (hKi : env.mro[i]? = some K)
    (hij : i < j)
    (hc : env.mro[j]? = some c)
    (hb : env.tbl c m = some b)
    (hmin : ∀ k ck, i < k → k < j → env.mro[k]? = some ck → env.tbl ck m = none) :
    (superDispatch (fuel + 1) env st m =
      match runBody fuel env (some c) b with
      | none => none
      | some (Except.ok v, _) => some (Except.ok v, none)
      | some (Except.error e, st2) => some (Except.error e, st2))
    ∧ jsIndexOf env.mro c = (j : Int)
    ∧ ∀ m2, b = Body.callSuper m2 →
        runBody fuel env (some c) b = superDispatch fuel env (some c) m2 := by
  have hidx : jsIndexOf env.mro K = (i : Int) := jsIndexOf_nodup hnd hKi
  have htoNat : ((i : Int) + 1).toNat = i + 1 := by omega
  have hscan : scanTail env.tbl m (env.mro.drop (i + 1)) = some (c, b) := by
    apply scanTail_of_first (env.mro.drop (i + 1)) (j - (i + 1)) c b
    · rw [List.getElem?_drop, show (i + 1) + (j - (i + 1)) = j by omega]
      exact hc
    · exact hb
    · intro k ck hk hck
      rw [List.getElem?_drop] at hck
      exact hmin ((i + 1) + k) ck (by omega) (by omega) hck
  refine ⟨?_, jsIndexOf_nodup hnd hc, ?_⟩
  · rw [superDispatch_succ, hK, hidx, htoNat, hscan]
  · intro m2 hbm
    subst hbm
    rfl

/-- Witness for `super_dispatch_resolves`: MRO [10, 20, 30], context
defaulting to class 10, method "f" defined only on class 20: the dispatch
returns 5 and leaves no transient context. -/
theorem super_dispatch_resolves_witness :
    superDispatch 6 envW none "f" = some (Except.ok 5, none) := by
  have h := super_dispatch_resolves envW none "f" 5 0 1 10 20 (Body.ret 5)
    (by decide) rfl rfl (by omega) rfl rfl
    (fun k ck h1 h2 _ => absurd h1 (by omega))
  exact h.1

/-- C5 (counterexample): for an instance of the class named "Zebra" whose MRO
contains no further class defining "greet", the thrown message is exactly
`__super__(): method 'greet' not found` — it names the method but does not
contain the originating class's name anywhere. -/
theorem super_error_lacks_class_name :
    superDispatch 4 envZ none "greet" =
      some (Except.error "__super__(): method 'greet' not found", none) ∧
      envZ.className = "Zebra" ∧
      strHasSub "__super__(): method 'greet' not found" "Zebra" = false := by
  exact ⟨rfl, rfl, by decide⟩

/-- C5 (amended): when no class after the current context position declares
the method, `__super__` throws the error `__super__(): method 'm' not found`
— so it never silently returns undefined, and the message names the
requested method, but not the originating class. -/
theorem super_missing_method (env : SuperEnv) (st : Option Nat) (m : String) (fuel : Nat)
    (h : scanTail env.tbl m
        (env.mro.drop ((jsIndexOf env.mro (st.getD env.cls)) + 1).toNat) = none) :
    superDispatch (fuel + 1) env st m =
      some (Except.error ("__super__(): method '" ++ m ++ "' not found"), st) := by
  rw [superDispatch_succ, h]

/-- Witness for `super_missing_method`: the concrete missing-method call
throws, and the message contains the method name as a substring. -/
theorem super_missing_method_witness :
    superDispatch 4 envZ none "greet" =
      some (Except.error "__super__(): method 'greet' not found", none) ∧
      strHasSub "__super__(): method 'greet' not found" "greet" = true := by
  constructor
  · exact super_missing_method envZ none "greet" 3 rfl
  · decide

/-! ### Singleton factory -/

/-- C8 (counterexample): a definition carrying a truthy `_instance` key
pre-seeds the constructor's cache slot (step 9a of `newClass`), so the
first getter invocation returns that value without ever running the
underlying class constructor (third component `false`). -/
theorem singleton_preseeded_skips_constructor :
    initialInstanceSlot [("_instance", Val.vbool true)] = Val.vbool true ∧
      getInstance mkObj1 (Val.vbool true) [] = (Val.vbool true, Val.vbool true, false) := by
  exact ⟨rfl, rfl⟩

/-- C8 (amended): provided the cache slot starts falsy (in particular when
the definition supplies no `_instance` key) and the underlying constructor
returns instances (truthy objects), the first getter call constructs and
caches, and every later call — whatever its arguments — returns the same
cached instance without constructing; the final slot still holds it (no
reset path). -/
theorem singleton_caches (construct1 : List Val → Val) (slot0 : Val) (a0 : List Val)
    (rest : List (List Val))
    (h0 : isFalsy slot0 = true)
    (hc : ∀ a, isFalsy (construct1 a) = false) :
    runCalls construct1 slot0 (a0 :: rest) =
      ((construct1 a0, true) :: rest.map (fun _ => (construct1 a0, false)), construct1 a0) := by
  have step : ∀ (i : Val) (l : List (List Val)), isFalsy i = false →
      runCalls construct1 i l = (l.map (fun _ => (i, false)), i) := by
    intro i l hi
    induction l with
    | nil => rfl
    | cons a as ih => simp [runCalls, getInstance, hi, ih]
  simp [runCalls, getInstance, h0, step (construct1 a0) rest (hc a0)]

/-- Witness for `singleton_caches`: two calls with different argument lists
yield the same instance; only the first call constructs. -/
theorem singleton_caches_witness :
    runCalls mkObj1 Val.undef [[], [Val.vnum 9]] =
      ([(Val.vobj [("x", Val.vnum 1)], true), (Val.vobj [("x", Val.vnum 1)], false)],
        Val.vobj [("x", Val.vnum 1)]) := by
  exact singleton_caches mkObj1 Val.undef [] [[Val.vnum 9]] rfl (fun a => rfl)

end PyClass
